import Mathlib

/-!
Verification of the audio playback controller in
`src/components/audioController.js`.

The controller is a single mutable state object (`state`, lines 13-25)
mutated by exported operations.  We embed that state as the structure
`CState` and each operation as a pure function `CState → CState`,
translated line by line from the source.  JavaScript array indices may be
arbitrary integers, so index arguments and `state.queueIndex` are `Int`;
`Array.prototype.slice`/`splice` clamping is modelled faithfully by
`jsIdx`.  `Math.random()` draws are modelled by an oracle `r : Nat → Nat`:
iteration `i` of the Fisher-Yates loop uses `r i % (i + 1)`, exactly the
range `Math.floor(Math.random() * (i + 1))` can produce.  Numeric audio
fields (`currentTime`, `duration`, waveform peaks) are embedded as `ℚ`;
the claims checked here involve only comparisons, division and the
literal `0.3`, on which `ℚ` agrees with IEEE doubles.
-/

namespace AudioCtl

/-- Track record as supplied by a playlist view: the `src` and `title`
fields the controller reads (other fields of the duck-typed JS object do
not participate in any claim). -/
structure Track where
  src : String
  title : String
deriving DecidableEq

/-- Queue entry `{ src, title, originalIndex, id }` (spec section 3; created at
lines 311-317 and 322-327).  `originalIndex` is `none` for items appended
by `addToQueue`, which does not set that property. -/
structure QueueItem where
  src : String
  title : String
  originalIndex : Option Nat
  id : Nat
deriving DecidableEq

/-- Shape of `state.currentTrack` as set by `playFromQueue` (lines
159-163): the queue item's fields spread together with
`peaks: null, duration: 0`. -/
structure CurrentTrack where
  src : String
  title : String
  originalIndex : Option Nat
  id : Nat
  peaks : Option (List ℚ)
  duration : ℚ
deriving DecidableEq

/-- Spread of a queue item into a fresh `currentTrack` record
(`{...track, peaks: null, duration: 0}`, lines 159-163). -/
def QueueItem.toCurrent (t : QueueItem) : CurrentTrack :=
  ⟨t.src, t.title, t.originalIndex, t.id, none, 0⟩

/-- Fields of the shared `Audio` element that the controller reads or
writes.  `src = ""` models "no source loaded" (`stop` assigns `''`). -/
structure AudioEl where
  src : String
  currentTime : ℚ
  duration : ℚ
  paused : Bool
deriving DecidableEq

/-- The controller state object (lines 13-25) together with the module
counter `queueIdCounter` (line 306).  DOM-only fields (mini-player
element, subscriber set, playlists map) hold no controller state touched
by the claims and are omitted. -/
structure CState where
  audio : AudioEl
  currentTrack : Option CurrentTrack
  isPlaying : Bool
  miniPlayerVisible : Bool
  queue : List QueueItem
  queueIndex : Int
  queueExpanded : Bool
  shuffle : Bool
  loop : Bool
  queueIdCounter : Nat
deriving DecidableEq

/-- State right after `initAudioController` in a fresh module: empty
queue, no track, counter 0 (lines 13-25, 306). -/
def initState : CState :=
  { audio := ⟨"", 0, 0, true⟩
    currentTrack := none
    isPlaying := false
    miniPlayerVisible := false
    queue := []
    queueIndex := 0
    queueExpanded := false
    shuffle := false
    loop := false
    queueIdCounter := 0 }

/-- JS array read `a[i]`: `undefined` (here `none`) when out of range or
negative. -/
def getI (l : List α) (i : Int) : Option α :=
  if i < 0 then none else l[i.toNat]?

/-- Clamp of a JS `slice`/`splice` position argument against length `n`:
negative positions count from the end, everything is clamped into
`[0, n]`. -/
def jsIdx (i : Int) (n : Nat) : Nat :=
  if i < 0 then ((n : Int) + i).toNat else min i.toNat n

/-- JS `l.slice(start, stop)`. -/
def jsSlice (l : List α) (start stop : Int) : List α :=
  (l.take (jsIdx stop l.length)).drop (jsIdx start l.length)

/-- JS one-argument `l.slice(start)`. -/
def jsSliceFrom (l : List α) (start : Int) : List α :=
  jsSlice l start (l.length : Int)

/-- JS `l.splice(i, 1)`: the removed element (if any) and the remaining
list. -/
def spliceRemove1 (l : List α) (i : Int) : Option α × List α :=
  (l[jsIdx i l.length]?, l.take (jsIdx i l.length) ++ l.drop (jsIdx i l.length + 1))

/-- JS `l.splice(i, 0, x)`: insert `x` at clamped position `i`. -/
def spliceInsert (l : List α) (i : Int) (x : α) : List α :=
  l.take (jsIdx i l.length) ++ x :: l.drop (jsIdx i l.length)

/-- One `[arr[i], arr[j]] = [arr[j], arr[i]]` destructuring swap (line
423).  The fallback branch is never reached by the Fisher-Yates loop,
whose indices are always in range. -/
def swapAt (l : List α) (i j : Nat) : List α :=
  match l[i]?, l[j]? with
  | some x, some y => (l.set i y).set j x
  | _, _ => l

/-- Fisher-Yates loop of `shuffleArray` (lines 420-425): iteration `i`
(counting down from `length - 1` to `1`) swaps positions `i` and
`r i % (i + 1)`. -/
def fyLoop (r : Nat → Nat) : Nat → List α → List α
  | 0, l => l
  | i + 1, l => fyLoop r i (swapAt l (i + 1) (r (i + 1) % (i + 2)))

/-- JS `shuffleArray(arr)` (lines 418-425) with the random draws supplied
by the oracle `r`. -/
def shuffleArray (r : Nat → Nat) (l : List α) : List α :=
  fyLoop r (l.length - 1) l

/-- JS `addToQueue(track)` (lines 311-317): push `{...track, id:
++queueIdCounter}`.  (`updateMiniPlayer` is DOM-only.) -/
def addToQueue (track : Track) (st : CState) : CState :=
  { st with
    queue := st.queue ++ [⟨track.src, track.title, none, st.queueIdCounter + 1⟩]
    queueIdCounter := st.queueIdCounter + 1 }

/-- The `tracks.map((t, i) => ({...t, originalIndex: i, id:
++queueIdCounter}))` step of `addPlaylistToQueue` (lines 323-327), given
the counter value `c` before the call: element `i` receives id
`c + 1 + i`. -/
def enrich (c : Nat) (tracks : List Track) : List QueueItem :=
  tracks.enum.map (fun p => ⟨p.2.src, p.2.title, some p.1, c + 1 + p.1⟩)

/-- JS `addPlaylistToQueue(tracks, startIndex)` (lines 322-342).  In the
shuffle branch with an out-of-range `startIndex` the JS code would place
`undefined` at the head of the queue; that value is not representable
here and no claim reaches the branch, so the head is simply omitted. -/
def addPlaylistToQueue (r : Nat → Nat) (tracks : List Track) (startIndex : Int)
    (st : CState) : CState :=
  let newTracks := enrich st.queueIdCounter tracks
  let c' := st.queueIdCounter + tracks.length
  if st.shuffle then
    let rest :=
      (newTracks.enum.filter (fun p => ¬((p.1 : Int) = startIndex))).map (fun p => p.2)
    match getI newTracks startIndex with
    | some startTrack =>
        { st with queue := startTrack :: shuffleArray r rest
                  queueIndex := 0
                  queueIdCounter := c' }
    | none =>
        { st with queue := shuffleArray r rest
                  queueIndex := 0
                  queueIdCounter := c' }
  else
    { st with queue := jsSliceFrom newTracks startIndex ++ jsSlice newTracks 0 startIndex
              queueIndex := 0
              queueIdCounter := c' }

/-- JS `removeFromQueue(index)` (lines 347-358). -/
def removeFromQueue (index : Int) (st : CState) : CState :=
  let q' := (spliceRemove1 st.queue index).2
  let qi :=
    if index < st.queueIndex then st.queueIndex - 1
    else if index = st.queueIndex ∧ (q'.length : Int) ≤ st.queueIndex then
      max 0 ((q'.length : Int) - 1)
    else st.queueIndex
  { st with queue := q', queueIndex := qi }

/-- JS `reorderQueue(fromIndex, toIndex)` (lines 363-377).  When
`fromIndex` selects no element the JS code would splice `undefined` back
in; that value is not representable here and no claim reaches the branch,
so the insertion is skipped. -/
def reorderQueue (fromIndex toIndex : Int) (st : CState) : CState :=
  let rem := spliceRemove1 st.queue fromIndex
  let q' :=
    match rem.1 with
    | some item => spliceInsert rem.2 toIndex item
    | none => rem.2
  let qi :=
    if fromIndex = st.queueIndex then toIndex
    else if fromIndex < st.queueIndex ∧ st.queueIndex ≤ toIndex then st.queueIndex - 1
    else if st.queueIndex < fromIndex ∧ toIndex ≤ st.queueIndex then st.queueIndex + 1
    else st.queueIndex
  { st with queue := q', queueIndex := qi }

/-- JS `toggleShuffle()` (lines 382-398).  With an invalid `queueIndex`
the JS code would pin `undefined` at the head of the new queue; that
value is not representable here and every claim assumes the
`queueIndex`-validity invariant, so the state is left unchanged in that
(unreached) branch. -/
def toggleShuffle (r : Nat → Nat) (st : CState) : CState :=
  let st1 : CState := { st with shuffle := !st.shuffle }
  if st1.shuffle = true ∧ 1 < st1.queue.length then
    match getI st1.queue st1.queueIndex with
    | some current =>
        let before := jsSlice st1.queue 0 st1.queueIndex
        let after := jsSliceFrom st1.queue (st1.queueIndex + 1)
        let rest := shuffleArray r (before ++ after)
        { st1 with queue := current :: rest, queueIndex := 0 }
    | none => st1
  else st1

/-- JS `toggleLoop()` (lines 403-407). -/
def toggleLoop (st : CState) : CState :=
  { st with loop := !st.loop }

/-- JS `toggleQueueExpanded()` (lines 412-415). -/
def toggleQueueExpanded (st : CState) : CState :=
  { st with queueExpanded := !st.queueExpanded }

/-- JS `playFromQueue(queueIndex)` (lines 153-179).  `audio.play()` is
modelled together with the `play` event listener it fires (lines 43-47):
`paused := false`, `isPlaying := true`.  The asynchronous waveform
callback (lines 169-175) runs outside the synchronous step and is not
part of the transition.  The inner `none` branch is unreachable: the
guard puts the index in range. -/
def playFromQueue (queueIndex : Int) (st : CState) : CState :=
  if queueIndex < 0 ∨ (st.queue.length : Int) ≤ queueIndex then st
  else
    match getI st.queue queueIndex with
    | some track =>
        { st with queueIndex := queueIndex
                  currentTrack := some track.toCurrent
                  audio := { st.audio with src := track.src, paused := false }
                  isPlaying := true }
    | none => st

/-- JS `playNext()` (lines 213-229).  The end-of-queue branch models
`audio.pause()` together with its `pause` event listener (lines 48-52)
and the explicit `state.isPlaying = false`. -/
def playNext (st : CState) : CState :=
  if st.queue.length = 0 then st
  else
    let nextIndex := st.queueIndex + 1
    if nextIndex < (st.queue.length : Int) then playFromQueue nextIndex st
    else if st.loop = true then playFromQueue 0 st
    else { st with audio := { st.audio with paused := true }, isPlaying := false }

/-- JS `playPrev()` (lines 234-254). -/
def playPrev (st : CState) : CState :=
  if st.queue.length = 0 then st
  else if 3 < st.audio.currentTime then
    { st with audio := { st.audio with currentTime := 0 } }
  else
    let prevIndex := st.queueIndex - 1
    if 0 ≤ prevIndex then playFromQueue prevIndex st
    else if st.loop = true then playFromQueue ((st.queue.length : Int) - 1) st
    else { st with audio := { st.audio with currentTime := 0 } }

/-- JS `stop()` (lines 259-283).  The playlist `updateUI` callback and
`notifySubscribers`/`updateMiniPlayer` are DOM-only. -/
def stop (st : CState) : CState :=
  { st with
    audio := { st.audio with paused := true, src := "" }
    currentTrack := none
    isPlaying := false
    miniPlayerVisible := false
    queue := []
    queueIndex := 0
    queueExpanded := false }

/-- JS `togglePlay()` (lines 184-192), with `play()`/`pause()` modelled
together with their event listeners. -/
def togglePlay (st : CState) : CState :=
  if st.audio.src = "" then st
  else if st.isPlaying then
    { st with audio := { st.audio with paused := true }, isPlaying := false }
  else
    { st with audio := { st.audio with paused := false }, isPlaying := true }

/-- JS `seek(percent)` (lines 204-208).  The JS truthiness guard
`if (state.audio.duration)` is false for `0` and for `NaN` (no metadata
yet); both are modelled by `duration = 0`. -/
def seek (percent : ℚ) (st : CState) : CState :=
  if st.audio.duration = 0 then st
  else { st with audio := { st.audio with currentTime := percent * st.audio.duration } }

/-- Snapshot record built by `getState()` (lines 288-300), with each
field holding the value read from the state object. -/
structure Snapshot where
  currentTrack : Option CurrentTrack
  isPlaying : Bool
  currentTime : ℚ
  duration : ℚ
  queue : List QueueItem
  queueIndex : Int
  queueExpanded : Bool
  shuffle : Bool
  loop : Bool
deriving DecidableEq

/-- JS `getState()` (lines 288-300) viewed extensionally: the values of
the returned record's fields.  (Reference sharing of the `queue` and
`currentTrack` fields is modelled separately below.) -/
def getState (st : CState) : Snapshot :=
  ⟨st.currentTrack, st.isPlaying, st.audio.currentTime, st.audio.duration,
   st.queue, st.queueIndex, st.queueExpanded, st.shuffle, st.loop⟩

/-- Queue-index validity invariant from spec section 3: `queueIndex` lies in
`[0, queue.length)`. -/
def validIndex (st : CState) : Prop :=
  0 ≤ st.queueIndex ∧ st.queueIndex < (st.queue.length : Int)

instance (st : CState) : Decidable (validIndex st) := by
  unfold validIndex; infer_instance

/-! Waveform model (`getWaveformData`, lines 73-110).  The platform
decode pipeline (`fetch` + `arrayBuffer` + `decodeAudioData`, lines
81-83) is the environment: an oracle `String → Option (List ℚ × ℚ)`
yielding channel-0 sample data and the buffer duration, with `none`
modelling a thrown error (network or decode failure), caught at line
106. -/

/-- Result record `{ peaks, duration }` built at lines 103 and 108. -/
structure WFData where
  peaks : List ℚ
  duration : ℚ
deriving DecidableEq

/-- Peak extraction and normalization (lines 85-101).  `rawData.getD _ 0`
stands for `rawData[start + j]`, which the loop bounds keep in range
(`blockSize * barCount ≤ samples`); out of range JS would produce `NaN`,
which the `abs > max` test discards exactly like the default `0` here.
`Math.max(...peaks)` is `foldl max 0`: peaks are nonnegative, and when
`barCount = 0` both sides feed an empty `map`. -/
def computePeaks (rawData : List ℚ) (barCount : Nat) : List ℚ :=
  let blockSize := rawData.length / barCount
  let peaks := (List.range barCount).map (fun i =>
    (List.range blockSize).foldl (fun m j =>
      if m < |rawData.getD (i * blockSize + j) 0| then |rawData.getD (i * blockSize + j) 0|
      else m) 0)
  let maxPeak := peaks.foldl max 0
  peaks.map (fun p => if 0 < maxPeak then p / maxPeak else 3 / 10)

/-- Outcome of one `getWaveformData(src, barCount)` call: the returned
record, the cache after the call, and whether the fetch/decode path ran
(the "call-count spy on the decode step" of spec section 8). -/
structure GWDOutcome where
  result : WFData
  cache : List (String × WFData)
  decodeInvoked : Bool
deriving DecidableEq

/-- JS `getWaveformData(src, barCount)` (lines 73-110).  The `Map` cache
is an association list; `waveformCache.set` (line 104) is modelled by
prepending, which `List.lookup` reads back exactly like the JS `Map`.
Note the `catch` branch (lines 106-109) returns the placeholder without
caching it. -/
def getWaveformData (decode : String → Option (List ℚ × ℚ))
    (cache : List (String × WFData)) (src : String) (barCount : Nat) : GWDOutcome :=
  match cache.lookup src with
  | some cached => ⟨cached, cache, false⟩
  | none =>
    match decode src with
    | some d => ⟨⟨computePeaks d.1 barCount, d.2⟩,
                 (src, ⟨computePeaks d.1 barCount, d.2⟩) :: cache, true⟩
    | none => ⟨⟨List.replicate barCount (3 / 10), 0⟩, cache, true⟩

/-! Reference-semantics model of `getState` (lines 288-300) for the
aliasing question.  In JS an object property holds a reference: line 294
`queue: state.queue` copies the reference to the controller's queue
array into the returned record, not the array itself, and line 290
`currentTrack: state.currentTrack` likewise copies the reference to the
current-track record.  Heaps map references to array contents and to
track records; the controller and the snapshot each hold references. -/

/-- Heap of JS arrays, addressed by reference. -/
def RefHeap : Type := Nat → List QueueItem

/-- Heap of JS `currentTrack` records, addressed by reference (`none`
standing for a cleared record). -/
def ObjHeap : Type := Nat → Option CurrentTrack

/-- Assignment through an array reference: the JS mutation
`snapshot.queue.length = 0` or `snapshot.queue.push(...)` replaces the
array contents reachable from every holder of the reference. -/
def heapWrite (h : RefHeap) (r : Nat) (v : List QueueItem) : RefHeap :=
  fun x => if x = r then v else h x

/-- Assignment through a track-record reference: mutating
`snapshot.currentTrack` in place changes the record reachable from every
holder of the reference. -/
def objWrite (g : ObjHeap) (r : Nat) (w : Option CurrentTrack) : ObjHeap :=
  fun x => if x = r then w else g x

/-- The controller fragment relevant to aliasing: `state.queue` is a
reference to a heap array and `state.currentTrack` a reference to a
heap record. -/
structure RefCtrl where
  queueRef : Nat
  currentTrackRef : Nat

/-- The snapshot object literal built by `getState`, with its `queue`
property (line 294) and its `currentTrack` property (line 290). -/
structure RefSnapshot where
  queueRef : Nat
  currentTrackRef : Nat

/-- Lines 290 and 294 under reference semantics: the fresh snapshot
record receives the same array reference and the same track-record
reference the controller holds. -/
def getStateRef (c : RefCtrl) : RefSnapshot :=
  ⟨c.queueRef, c.currentTrackRef⟩

/-- The queue contents the controller observes through its reference. -/
def ctrlQueue (h : RefHeap) (c : RefCtrl) : List QueueItem :=
  h c.queueRef

/-- The current-track record the controller observes through its
reference. -/
def ctrlTrack (g : ObjHeap) (c : RefCtrl) : Option CurrentTrack :=
  g c.currentTrackRef

/-! Operation traces, for the id-uniqueness claim.  An `Op` is one call a
collaborator can make on the controller; the `Math.random` draws a
shuffling call consumes are part of the operation. -/

inductive Op where
  | addToQueueOp (tr : Track)
  | addPlaylistToQueueOp (r : Nat → Nat) (tracks : List Track) (startIndex : Int)
  | removeFromQueueOp (i : Int)
  | reorderQueueOp (fromIndex toIndex : Int)
  | toggleShuffleOp (r : Nat → Nat)
  | toggleLoopOp
  | toggleQueueExpandedOp
  | togglePlayOp
  | seekOp (p : ℚ)
  | playFromQueueOp (i : Int)
  | playNextOp
  | playPrevOp
  | stopOp

/-- Effect of one call on the controller state. -/
def step : Op → CState → CState
  | .addToQueueOp tr => addToQueue tr
  | .addPlaylistToQueueOp r ts s => addPlaylistToQueue r ts s
  | .removeFromQueueOp i => removeFromQueue i
  | .reorderQueueOp f t => reorderQueue f t
  | .toggleShuffleOp r => toggleShuffle r
  | .toggleLoopOp => toggleLoop
  | .toggleQueueExpandedOp => toggleQueueExpanded
  | .togglePlayOp => togglePlay
  | .seekOp p => seek p
  | .playFromQueueOp i => playFromQueue i
  | .playNextOp => playNext
  | .playPrevOp => playPrev
  | .stopOp => stop

/-- Ids assigned during one call, in assignment order: `addToQueue`
assigns `queueIdCounter + 1` (line 314), `addPlaylistToQueue` assigns the
ids of the items it creates (lines 323-327); no other operation touches
`queueIdCounter`. -/
def opIds : Op → CState → List Nat
  | .addToQueueOp _, st => [st.queueIdCounter + 1]
  | .addPlaylistToQueueOp _ ts _, st => (enrich st.queueIdCounter ts).map (fun q => q.id)
  | _, _ => []

/-- All ids assigned over a sequence of calls, in assignment order. -/
def idTrace : CState → List Op → List Nat
  | _, [] => []
  | st, op :: ops => opIds op st ++ idTrace (step op st) ops

/-! Helper lemmas about the JS index arithmetic. -/

theorem jsIdx_le (i : Int) (n : Nat) : jsIdx i n ≤ n := by
  unfold jsIdx
  split <;> omega

theorem jsIdx_eq_toNat {i : Int} {n : Nat} (h0 : 0 ≤ i) (h : i ≤ (n : Int)) :
    jsIdx i n = i.toNat := by
  unfold jsIdx
  rw [if_neg (by omega)]
  omega

theorem getI_eq_getElem? (l : List α) (i : Int) (h0 : 0 ≤ i) :
    getI l i = l[i.toNat]? := by
  unfold getI
  rw [if_neg (by omega)]

theorem getI_eq_some (l : List α) (i : Int) (h0 : 0 ≤ i) (h : i < (l.length : Int)) :
    getI l i = some (l.get ⟨i.toNat, by omega⟩) := by
  rw [getI_eq_getElem? l i h0]
  exact List.getElem?_eq_some.mpr ⟨by omega, rfl⟩

theorem jsSlice_zero_take {e : Int} (l : List α) (h0 : 0 ≤ e) :
    jsSlice l 0 e = l.take e.toNat := by
  unfold jsSlice
  have hz : jsIdx 0 l.length = 0 := by unfold jsIdx; simp
  rw [hz, List.drop_zero]
  unfold jsIdx
  rw [if_neg (by omega)]
  rcases Nat.le_total e.toNat l.length with h | h
  · rw [Nat.min_eq_left h]
  · rw [Nat.min_eq_right h, List.take_length, List.take_of_length_le h]

theorem jsSliceFrom_drop {s : Int} (l : List α) (h0 : 0 ≤ s) :
    jsSliceFrom l s = l.drop s.toNat := by
  unfold jsSliceFrom jsSlice
  have he : jsIdx (l.length : Int) l.length = l.length := by
    unfold jsIdx
    rw [if_neg (by omega)]
    omega
  rw [he, List.take_length]
  unfold jsIdx
  rw [if_neg (by omega)]
  rcases Nat.le_total s.toNat l.length with h | h
  · rw [Nat.min_eq_left h]
  · rw [Nat.min_eq_right h, List.drop_length, List.drop_eq_nil_of_le h]

theorem spliceRemove1_eq {i : Int} (l : List α) (h0 : 0 ≤ i) (h : i < (l.length : Int)) :
    spliceRemove1 l i = (l[i.toNat]?, l.eraseIdx i.toNat) := by
  unfold spliceRemove1
  rw [jsIdx_eq_toNat h0 (le_of_lt h), List.eraseIdx_eq_take_drop_succ]

theorem spliceInsert_length (l : List α) (i : Int) (x : α) :
    (spliceInsert l i x).length = l.length + 1 := by
  unfold spliceInsert
  have := jsIdx_le i l.length
  simp [List.length_take, List.length_drop]
  omega

theorem spliceInsert_getElem? {i : Int} (l : List α) (x : α) (h0 : 0 ≤ i)
    (h : i ≤ (l.length : Int)) (m : Nat) :
    (spliceInsert l i x)[m]? =
      if m < i.toNat then l[m]?
      else if m = i.toNat then some x
      else l[m - 1]? := by
  unfold spliceInsert
  rw [jsIdx_eq_toNat h0 h]
  have hs : i.toNat ≤ l.length := by omega
  have hlt : (l.take i.toNat).length = i.toNat := by
    rw [List.length_take]
    omega
  rw [List.getElem?_append, hlt]
  rcases Nat.lt_trichotomy m i.toNat with hm | hm | hm
  · rw [if_pos hm, if_pos hm, List.getElem?_take, if_pos hm]
  · subst hm
    rw [if_neg (by omega), if_neg (by omega), if_pos rfl, Nat.sub_self]
    simp
  · rw [if_neg (by omega), if_neg (by omega), if_neg (by omega)]
    have hm1 : m - i.toNat = (m - i.toNat - 1) + 1 := by omega
    rw [hm1, List.getElem?_cons_succ, List.getElem?_drop]
    congr 1
    omega

/-! Permutation facts for the Fisher-Yates shuffle. -/

theorem swapAt_perm [DecidableEq α] (l : List α) (i j : Nat) :
    (swapAt l i j).Perm l := by
  unfold swapAt
  cases hx : l[i]? with
  | none => exact List.Perm.refl l
  | some x =>
    cases hy : l[j]? with
    | none => exact List.Perm.refl l
    | some y =>
      obtain ⟨hi, hxe⟩ := List.getElem?_eq_some.mp hx
      obtain ⟨hj, hye⟩ := List.getElem?_eq_some.mp hy
      have hj2 : j < (l.set i y).length := by
        rw [List.length_set]
        exact hj
      show ((l.set i y).set j x).Perm l
      rw [List.perm_iff_count]
      intro a
      have hji : (l.set i y)[j] = y := by
        rcases eq_or_ne i j with rfl | hne
        · exact List.getElem_set_self hj2
        · rw [List.getElem_set_ne hne]
          exact hye
      have c1 := List.count_set y a l i hi
      have c2 := List.count_set x a (l.set i y) j hj2
      rw [hxe] at c1
      rw [hji] at c2
      have hcx : x = a → 1 ≤ l.count a := by
        intro hxa
        refine List.count_pos_iff.mpr (List.mem_iff_getElem.mpr ⟨i, hi, ?_⟩)
        rw [hxe]
        exact hxa
      have hcy : y = a → 1 ≤ (l.set i y).count a := by
        intro hya
        refine List.count_pos_iff.mpr (List.mem_iff_getElem.mpr ⟨j, hj2, ?_⟩)
        rw [hji]
        exact hya
      simp only [beq_iff_eq] at c1 c2
      by_cases hxa : x = a <;> by_cases hya : y = a
      · have k1 := hcx hxa
        have k2 := hcy hya
        rw [if_pos hxa, if_pos hya] at c1 c2
        omega
      · have k1 := hcx hxa
        rw [if_pos hxa, if_neg hya] at c1 c2
        omega
      · have k2 := hcy hya
        rw [if_neg hxa, if_pos hya] at c1 c2
        omega
      · rw [if_neg hxa, if_neg hya] at c1 c2
        omega

theorem fyLoop_perm [DecidableEq α] (r : Nat → Nat) :
    ∀ (n : Nat) (l : List α), (fyLoop r n l).Perm l := by
  intro n
  induction n with
  | zero => intro l; exact List.Perm.refl l
  | succ i ih =>
    intro l
    exact (ih _).trans (swapAt_perm l (i + 1) (r (i + 1) % (i + 2)))

theorem shuffleArray_perm [DecidableEq α] (r : Nat → Nat) (l : List α) :
    (shuffleArray r l).Perm l :=
  fyLoop_perm r (l.length - 1) l

/-! Facts about `enrich` (the id-assigning map of `addPlaylistToQueue`). -/

theorem enrich_length (c : Nat) (ts : List Track) :
    (enrich c ts).length = ts.length := by
  simp [enrich]

theorem enrich_getElem? (c : Nat) (ts : List Track) (i : Nat) (tr : Track)
    (h : ts[i]? = some tr) :
    (enrich c ts)[i]? = some ⟨tr.src, tr.title, some i, c + 1 + i⟩ := by
  obtain ⟨hi, he⟩ := List.getElem?_eq_some.mp h
  have hi2 : i < (enrich c ts).length := by rw [enrich_length]; exact hi
  rw [List.getElem?_eq_some]
  refine ⟨hi2, ?_⟩
  unfold enrich
  simp only [List.getElem_map, List.getElem_enum, he]

theorem enrich_ids (c : Nat) (ts : List Track) :
    (enrich c ts).map (fun q => q.id) = List.range' (c + 1) ts.length := by
  apply List.ext_getElem
  · simp [enrich_length, List.length_range']
  · intro i h1 h2
    simp only [List.getElem_map, List.getElem_range']
    unfold enrich
    simp only [List.getElem_map, List.getElem_enum]
    omega

/-! Characterization of `playFromQueue` on an in-range index. -/

theorem playFromQueue_of_inrange (st : CState) (i : Int) (h0 : 0 ≤ i)
    (h1 : i < (st.queue.length : Int)) :
    ∃ tr : QueueItem, st.queue[i.toNat]? = some tr ∧
      playFromQueue i st =
        { st with queueIndex := i,
                  currentTrack := some tr.toCurrent,
                  audio := { st.audio with src := tr.src, paused := false },
                  isPlaying := true } := by
  refine ⟨st.queue.get ⟨i.toNat, by omega⟩, List.getElem?_eq_some.mpr ⟨by omega, rfl⟩, ?_⟩
  unfold playFromQueue
  rw [if_neg (by omega), getI_eq_some st.queue i h0 h1]

theorem pause_noop (s : CState) (h1 : s.audio.paused = true) (h2 : s.isPlaying = false) :
    { s with audio := { s.audio with paused := true }, isPlaying := false } = s := by
  cases s with
  | mk a ct ip mpv q qi qe sh lp c =>
    cases a
    simp_all

/-! `queueIdCounter` frame lemmas: only the two enqueueing operations
touch the counter. -/

theorem playFromQueue_counter (i : Int) (st : CState) :
    (playFromQueue i st).queueIdCounter = st.queueIdCounter := by
  unfold playFromQueue
  split
  · rfl
  · split <;> rfl

theorem playNext_counter (st : CState) :
    (playNext st).queueIdCounter = st.queueIdCounter := by
  simp only [playNext]
  split_ifs <;> first | rfl | exact playFromQueue_counter _ _

theorem playPrev_counter (st : CState) :
    (playPrev st).queueIdCounter = st.queueIdCounter := by
  simp only [playPrev]
  split_ifs <;> first | rfl | exact playFromQueue_counter _ _

theorem toggleShuffle_counter (r : Nat → Nat) (st : CState) :
    (toggleShuffle r st).queueIdCounter = st.queueIdCounter := by
  unfold toggleShuffle
  dsimp only
  split
  · split <;> rfl
  · rfl

theorem togglePlay_counter (st : CState) :
    (togglePlay st).queueIdCounter = st.queueIdCounter := by
  unfold togglePlay
  split_ifs <;> rfl

theorem seek_counter (p : ℚ) (st : CState) :
    (seek p st).queueIdCounter = st.queueIdCounter := by
  unfold seek
  split_ifs <;> rfl

theorem addPlaylistToQueue_counter (r : Nat → Nat) (ts : List Track) (s : Int) (st : CState) :
    (addPlaylistToQueue r ts s st).queueIdCounter = st.queueIdCounter + ts.length := by
  unfold addPlaylistToQueue
  dsimp only
  split
  · split <;> rfl
  · rfl

theorem step_counter_mono (op : Op) (st : CState) :
    st.queueIdCounter ≤ (step op st).queueIdCounter := by
  cases op with
  | addToQueueOp tr => exact Nat.le_succ _
  | addPlaylistToQueueOp r ts s =>
      show st.queueIdCounter ≤ (addPlaylistToQueue r ts s st).queueIdCounter
      rw [addPlaylistToQueue_counter]
      omega
  | removeFromQueueOp i => exact le_rfl
  | reorderQueueOp f t => exact le_rfl
  | toggleShuffleOp r =>
      show st.queueIdCounter ≤ (toggleShuffle r st).queueIdCounter
      rw [toggleShuffle_counter]
  | toggleLoopOp => exact le_rfl
  | toggleQueueExpandedOp => exact le_rfl
  | togglePlayOp =>
      show st.queueIdCounter ≤ (togglePlay st).queueIdCounter
      rw [togglePlay_counter]
  | seekOp p =>
      show st.queueIdCounter ≤ (seek p st).queueIdCounter
      rw [seek_counter]
  | playFromQueueOp i =>
      show st.queueIdCounter ≤ (playFromQueue i st).queueIdCounter
      rw [playFromQueue_counter]
  | playNextOp =>
      show st.queueIdCounter ≤ (playNext st).queueIdCounter
      rw [playNext_counter]
  | playPrevOp =>
      show st.queueIdCounter ≤ (playPrev st).queueIdCounter
      rw [playPrev_counter]
  | stopOp => exact le_rfl

theorem opIds_bound (op : Op) (st : CState) :
    ∀ x ∈ opIds op st, st.queueIdCounter < x ∧ x ≤ (step op st).queueIdCounter := by
  cases op with
  | addToQueueOp tr =>
      intro x hx
      simp only [opIds, List.mem_singleton] at hx
      subst hx
      exact ⟨Nat.lt_succ_self _, le_rfl⟩
  | addPlaylistToQueueOp r ts s =>
      intro x hx
      simp only [opIds] at hx
      rw [enrich_ids, List.mem_range'] at hx
      obtain ⟨k, hk, rfl⟩ := hx
      refine ⟨by omega, ?_⟩
      show _ ≤ (addPlaylistToQueue r ts s st).queueIdCounter
      rw [addPlaylistToQueue_counter]
      omega
  | removeFromQueueOp i => intro x hx; simp [opIds] at hx
  | reorderQueueOp f t => intro x hx; simp [opIds] at hx
  | toggleShuffleOp r => intro x hx; simp [opIds] at hx
  | toggleLoopOp => intro x hx; simp [opIds] at hx
  | toggleQueueExpandedOp => intro x hx; simp [opIds] at hx
  | togglePlayOp => intro x hx; simp [opIds] at hx
  | seekOp p => intro x hx; simp [opIds] at hx
  | playFromQueueOp i => intro x hx; simp [opIds] at hx
  | playNextOp => intro x hx; simp [opIds] at hx
  | playPrevOp => intro x hx; simp [opIds] at hx
  | stopOp => intro x hx; simp [opIds] at hx

theorem opIds_sorted (op : Op) (st : CState) :
    List.Pairwise (fun a b => a < b) (opIds op st) := by
  cases op with
  | addPlaylistToQueueOp r ts s =>
      show List.Pairwise _ ((enrich st.queueIdCounter ts).map (fun q => q.id))
      rw [enrich_ids]
      exact List.pairwise_lt_range' _ _ 1
  | addToQueueOp tr => exact List.pairwise_singleton _ _
  | removeFromQueueOp i => exact List.Pairwise.nil
  | reorderQueueOp f t => exact List.Pairwise.nil
  | toggleShuffleOp r => exact List.Pairwise.nil
  | toggleLoopOp => exact List.Pairwise.nil
  | toggleQueueExpandedOp => exact List.Pairwise.nil
  | togglePlayOp => exact List.Pairwise.nil
  | seekOp p => exact List.Pairwise.nil
  | playFromQueueOp i => exact List.Pairwise.nil
  | playNextOp => exact List.Pairwise.nil
  | playPrevOp => exact List.Pairwise.nil
  | stopOp => exact List.Pairwise.nil

theorem idTrace_sorted_bound : ∀ (ops : List Op) (st : CState),
    List.Pairwise (fun a b => a < b) (idTrace st ops) ∧
    ∀ x ∈ idTrace st ops, st.queueIdCounter < x := by
  intro ops
  induction ops with
  | nil =>
      intro st
      exact ⟨List.Pairwise.nil, fun x hx => absurd hx (List.not_mem_nil x)⟩
  | cons op ops ih =>
      intro st
      obtain ⟨ihs, ihb⟩ := ih (step op st)
      constructor
      · rw [idTrace, List.pairwise_append]
        refine ⟨opIds_sorted op st, ihs, ?_⟩
        intro a ha b hb
        have hab := (opIds_bound op st a ha).2
        have hbb := ihb b hb
        omega
      · intro x hx
        rw [idTrace] at hx
        rcases List.mem_append.mp hx with h | h
        · exact (opIds_bound op st x h).1
        · have h1 := ihb x h
          have h2 := step_counter_mono op st
          omega

/-! Branch characterizations of `playNext`. -/

theorem playNext_advance (st : CState) (h2 : ¬st.queue.length = 0)
    (h1 : st.queueIndex + 1 < (st.queue.length : Int)) :
    playNext st = playFromQueue (st.queueIndex + 1) st := by
  unfold playNext
  rw [if_neg h2]
  dsimp only
  rw [if_pos h1]

theorem playNext_past_end (st : CState) (h2 : ¬st.queue.length = 0)
    (h1 : ¬st.queueIndex + 1 < (st.queue.length : Int)) (hl : st.loop = false) :
    playNext st =
      { st with audio := { st.audio with paused := true }, isPlaying := false } := by
  unfold playNext
  rw [if_neg h2]
  dsimp only
  rw [if_neg h1, if_neg (by simp [hl])]

theorem playNext_iter_inv (st : CState) (hl : st.loop = false)
    (h0 : st.queueIndex = 0) :
    ∀ k, k < st.queue.length →
      (playNext^[k] st).queue = st.queue ∧
      (playNext^[k] st).queueIndex = (k : Int) ∧
      (playNext^[k] st).loop = false := by
  intro k
  induction k with
  | zero =>
      intro _
      exact ⟨rfl, by simpa using h0, hl⟩
  | succ k ih =>
      intro hk
      obtain ⟨hq, hqi, hlp⟩ := ih (by omega)
      rw [Function.iterate_succ_apply']
      have hlen : (playNext^[k] st).queue.length = st.queue.length := by rw [hq]
      have hadv : playNext (playNext^[k] st) =
          playFromQueue ((playNext^[k] st).queueIndex + 1) (playNext^[k] st) :=
        playNext_advance _ (by omega) (by rw [hqi, hlen]; omega)
      obtain ⟨tr, htr, hpfq⟩ := playFromQueue_of_inrange (playNext^[k] st)
        ((playNext^[k] st).queueIndex + 1) (by rw [hqi]; omega)
        (by rw [hqi, hlen]; omega)
      rw [hadv, hpfq]
      refine ⟨hq, ?_, hlp⟩
      show (playNext^[k] st).queueIndex + 1 = ((k + 1 : Nat) : Int)
      rw [hqi]
      push_cast
      ring

/-! The claims. -/

/-- Claim C10: for every controller state with a non-empty queue and
in-range index arguments, `removeFromQueue(index)` and
`reorderQueue(fromIndex, toIndex)` leave `currentTrack`, `isPlaying`,
`shuffle`, `loop` and the loaded audio source unchanged; in particular
removing the currently playing item does not stop or change playback. -/
theorem remove_reorder_frame (st : CState) (i f t : Int)
    (hne : st.queue ≠ [])
    (hi0 : 0 ≤ i) (hi1 : i < (st.queue.length : Int))
    (hf0 : 0 ≤ f) (hf1 : f < (st.queue.length : Int))
    (ht0 : 0 ≤ t) (ht1 : t < (st.queue.length : Int)) :
    ((removeFromQueue i st).currentTrack = st.currentTrack ∧
     (removeFromQueue i st).isPlaying = st.isPlaying ∧
     (removeFromQueue i st).shuffle = st.shuffle ∧
     (removeFromQueue i st).loop = st.loop ∧
     (removeFromQueue i st).audio.src = st.audio.src) ∧
    ((reorderQueue f t st).currentTrack = st.currentTrack ∧
     (reorderQueue f t st).isPlaying = st.isPlaying ∧
     (reorderQueue f t st).shuffle = st.shuffle ∧
     (reorderQueue f t st).loop = st.loop ∧
     (reorderQueue f t st).audio.src = st.audio.src) :=
  ⟨⟨rfl, rfl, rfl, rfl, rfl⟩, ⟨rfl, rfl, rfl, rfl, rfl⟩⟩

/-- Witness for C10: removing the playing item (index 0) from a
two-element queue leaves `currentTrack` and `isPlaying` unchanged. -/
theorem remove_reorder_frame_witness :
    (removeFromQueue 0 (playFromQueue 0 (addToQueue ⟨"b", "B"⟩
        (addToQueue ⟨"a", "A"⟩ initState)))).isPlaying =
      (playFromQueue 0 (addToQueue ⟨"b", "B"⟩
        (addToQueue ⟨"a", "A"⟩ initState))).isPlaying :=
  (remove_reorder_frame
    (playFromQueue 0 (addToQueue ⟨"b", "B"⟩ (addToQueue ⟨"a", "A"⟩ initState)))
    0 0 1 (by decide) (by decide) (by decide) (by decide) (by decide)
    (by decide) (by decide)).1.2.1

/-- Claim C9: when the fetch/decode step fails (decode oracle yields
`none`) on an uncached source, `getWaveformData` catches the failure and
returns the flat placeholder: `barCount` peaks all equal to `0.3` and
duration `0`, with the cache untouched; being a total function of its
inputs, it propagates no exception to the caller. -/
theorem getWaveformData_failure_placeholder
    (decode : String → Option (List ℚ × ℚ)) (cache : List (String × WFData))
    (src : String) (barCount : Nat)
    (hmiss : cache.lookup src = none) (hdec : decode src = none) :
    getWaveformData decode cache src barCount =
      ⟨⟨List.replicate barCount (3 / 10), 0⟩, cache, true⟩ := by
  unfold getWaveformData
  rw [hmiss, hdec]

/-- Witness for C9: a decode oracle that always fails, an empty cache. -/
theorem getWaveformData_failure_placeholder_witness :
    getWaveformData (fun _ => none) [] "track.mp3" 80 =
      ⟨⟨List.replicate 80 (3 / 10), 0⟩, [], true⟩ :=
  getWaveformData_failure_placeholder (fun _ => none) [] "track.mp3" 80 rfl rfl

/-- Claim C8 counterexample: after a first call whose decode step fails,
nothing is cached, and a second call for the same `src` re-invokes the
fetch/decode path — so "waveform data is computed at most once per
distinct src" fails as stated for an unconditionally quantified `src`. -/
theorem getWaveformData_recompute_counterexample :
    (getWaveformData (fun _ => none)
        ((getWaveformData (fun _ => none) [] "track.mp3" 80).cache)
        "track.mp3" 80).decodeInvoked = true ∧
    (getWaveformData (fun _ => none) [] "track.mp3" 80).cache = [] :=
  ⟨rfl, rfl⟩

/-- Claim C8 (amended): if the first call's decode step succeeds, a
second `getWaveformData` call for the same `src` returns exactly the
cached result stored by the first call, without re-invoking the
fetch/decode path; if the decode step fails, the placeholder is not
cached and a subsequent call re-invokes the decode path. -/
theorem getWaveformData_cached_second_call
    (decode : String → Option (List ℚ × ℚ)) (cache : List (String × WFData))
    (src : String) (barCount : Nat)
    (hmiss : cache.lookup src = none) :
    (∀ d, decode src = some d →
      getWaveformData decode (getWaveformData decode cache src barCount).cache
          src barCount =
        ⟨(getWaveformData decode cache src barCount).result,
         (getWaveformData decode cache src barCount).cache, false⟩) ∧
    (decode src = none →
      (getWaveformData decode cache src barCount).cache = cache ∧
      (getWaveformData decode (getWaveformData decode cache src barCount).cache
          src barCount).decodeInvoked = true) := by
  constructor
  · intro d hdec
    have h1 : getWaveformData decode cache src barCount =
        ⟨⟨computePeaks d.1 barCount, d.2⟩,
         (src, ⟨computePeaks d.1 barCount, d.2⟩) :: cache, true⟩ := by
      unfold getWaveformData
      rw [hmiss, hdec]
    rw [h1]
    unfold getWaveformData
    simp [List.lookup]
  · intro hdec
    have h1 : getWaveformData decode cache src barCount =
        ⟨⟨List.replicate barCount (3 / 10), 0⟩, cache, true⟩ := by
      unfold getWaveformData
      rw [hmiss, hdec]
    rw [h1]
    refine ⟨rfl, ?_⟩
    unfold getWaveformData
    rw [hmiss, hdec]

/-- Witness for C8 (amended): a succeeding decode oracle on an empty
cache; the second call returns the cached record without decoding. -/
theorem getWaveformData_cached_second_call_witness :
    getWaveformData (fun _ => some ([1, 0], 7))
        (getWaveformData (fun _ => some ([1, 0], 7)) [] "track.mp3" 2).cache
        "track.mp3" 2 =
      ⟨(getWaveformData (fun _ => some ([1, 0], 7)) [] "track.mp3" 2).result,
       (getWaveformData (fun _ => some ([1, 0], 7)) [] "track.mp3" 2).cache,
       false⟩ :=
  (getWaveformData_cached_second_call (fun _ => some ([1, 0], 7)) [] "track.mp3" 2
    rfl).1 ([1, 0], 7) rfl

/-- Claim C2 counterexample: `getState` does not return a defensive
copy.  Writing through the `queue` reference held by the returned
snapshot changes the queue the controller itself observes: with the
controller's queue reference `0` pointing at a one-element array,
clearing the array through the snapshot leaves the controller with a
queue different from before. -/
theorem getState_alias_counterexample :
    ctrlQueue
        (heapWrite (fun _ => [⟨"a", "A", none, 1⟩]) (getStateRef ⟨0, 1⟩).queueRef [])
        ⟨0, 1⟩ ≠
      ctrlQueue (fun _ => [⟨"a", "A", none, 1⟩]) ⟨0, 1⟩ := by
  decide

/-- Claim C2 (amended): `getState` builds a fresh top-level record, but
its `queue` field (line 294) and its `currentTrack` field (line 290)
hold the very references the controller holds, so mutating the queue
array — or the current-track record — through the snapshot mutates the
controller's state. -/
theorem getState_reference_aliasing (c : RefCtrl) (h : RefHeap) (g : ObjHeap)
    (v : List QueueItem) (w : Option CurrentTrack) :
    (getStateRef c).queueRef = c.queueRef ∧
    (getStateRef c).currentTrackRef = c.currentTrackRef ∧
    ctrlQueue (heapWrite h (getStateRef c).queueRef v) c = v ∧
    ctrlTrack (objWrite g (getStateRef c).currentTrackRef w) c = w := by
  refine ⟨rfl, rfl, ?_, ?_⟩
  · show (if c.queueRef = c.queueRef then v else h c.queueRef) = v
    rw [if_pos rfl]
  · show (if c.currentTrackRef = c.currentTrackRef then w else g c.currentTrackRef) = w
    rw [if_pos rfl]

/-- Claim C3: with shuffle off and `0 ≤ s < length ts`,
`addPlaylistToQueue(ts, s)` sets the queue to the rotation
`ts[s:] ++ ts[:s]` of the freshly enriched items (clicked track first,
relative order preserved, element `i` carrying `originalIndex i` and the
fresh id `counter + 1 + i`) and resets `queueIndex` to `0`. -/
theorem addPlaylistToQueue_rotation (r : Nat → Nat) (ts : List Track) (s : Int)
    (st : CState) (hsh : st.shuffle = false) (h0 : 0 ≤ s)
    (hs : s < (ts.length : Int)) :
    (addPlaylistToQueue r ts s st).queue =
      (enrich st.queueIdCounter ts).drop s.toNat ++
        (enrich st.queueIdCounter ts).take s.toNat ∧
    (addPlaylistToQueue r ts s st).queueIndex = 0 ∧
    (∀ (i : Nat) (tr : Track), ts[i]? = some tr →
      (enrich st.queueIdCounter ts)[i]? =
        some ⟨tr.src, tr.title, some i, st.queueIdCounter + 1 + i⟩) := by
  refine ⟨?_, ?_, fun i tr h => enrich_getElem? st.queueIdCounter ts i tr h⟩
  · unfold addPlaylistToQueue
    rw [if_neg (by simp [hsh])]
    dsimp only
    rw [jsSliceFrom_drop _ h0, jsSlice_zero_take _ h0]
  · unfold addPlaylistToQueue
    rw [if_neg (by simp [hsh])]

/-- Witness for C3: `addPlaylistToQueue([A,B,C,D], 2)` on a fresh
controller yields the queue `[C,D,A,B]` (with original indices
`2,3,0,1` and ids `3,4,1,2`) and `queueIndex = 0`. -/
theorem addPlaylistToQueue_rotation_witness :
    (addPlaylistToQueue (fun _ => 0)
        [⟨"a", "A"⟩, ⟨"b", "B"⟩, ⟨"c", "C"⟩, ⟨"d", "D"⟩] 2 initState).queue =
      [⟨"c", "C", some 2, 3⟩, ⟨"d", "D", some 3, 4⟩,
       ⟨"a", "A", some 0, 1⟩, ⟨"b", "B", some 1, 2⟩] ∧
    (addPlaylistToQueue (fun _ => 0)
        [⟨"a", "A"⟩, ⟨"b", "B"⟩, ⟨"c", "C"⟩, ⟨"d", "D"⟩] 2 initState).queueIndex = 0 := by
  have h := addPlaylistToQueue_rotation (fun _ => 0)
    [⟨"a", "A"⟩, ⟨"b", "B"⟩, ⟨"c", "C"⟩, ⟨"d", "D"⟩] 2 initState rfl
    (by decide) (by decide)
  exact ⟨h.1.trans rfl, h.2.1⟩

/-- Claim C7: over any sequence of controller calls starting from the
fresh controller, the queue-item ids assigned by `addToQueue` and
`addPlaylistToQueue` are strictly increasing in order of assignment and
pairwise distinct — never reused, even across `stop()` clearing the
queue. -/
theorem queueItem_ids_distinct :
    ∀ ops : List Op,
      List.Pairwise (fun a b => a < b) (idTrace initState ops) ∧
      List.Pairwise (fun a b => a ≠ b) (idTrace initState ops) := by
  intro ops
  have h := idTrace_sorted_bound ops initState
  exact ⟨h.1, h.1.imp (fun hab => Nat.ne_of_lt hab)⟩

/-- Claim C5: with `loop` off and a non-empty queue of length `N`,
repeated `playNext()` from `queueIndex 0` advances `queueIndex` through
`1 .. N-1`; the `N`-th call stops playback (`isPlaying` becomes false)
while `currentTrack` is retained and `queue`/`queueIndex` are left
intact; every further `playNext()` call leaves the state unchanged. -/
theorem playNext_exhaustion (st : CState) (hl : st.loop = false)
    (hne : st.queue ≠ []) (h0 : st.queueIndex = 0) :
    (∀ k, 1 ≤ k → k ≤ st.queue.length - 1 →
      (playNext^[k] st).queueIndex = (k : Int)) ∧
    (playNext^[st.queue.length] st).isPlaying = false ∧
    (playNext^[st.queue.length] st).currentTrack =
      (playNext^[st.queue.length - 1] st).currentTrack ∧
    (playNext^[st.queue.length] st).queue = st.queue ∧
    (playNext^[st.queue.length] st).queueIndex = (st.queue.length : Int) - 1 ∧
    playNext (playNext^[st.queue.length] st) = playNext^[st.queue.length] st := by
  have hlen0 : st.queue.length ≠ 0 := fun h => hne (List.length_eq_zero.mp h)
  obtain ⟨M, hM⟩ : ∃ M, st.queue.length = M + 1 := ⟨st.queue.length - 1, by omega⟩
  obtain ⟨hqM, hqiM, hlpM⟩ := playNext_iter_inv st hl h0 M (by omega)
  have hs2 : playNext^[st.queue.length] st =
      { playNext^[M] st with
        audio := { (playNext^[M] st).audio with paused := true },
        isPlaying := false } := by
    rw [hM, Function.iterate_succ_apply']
    exact playNext_past_end _ (by rw [hqM]; omega)
      (by rw [hqiM, hqM, hM]; push_cast; omega) hlpM
  refine ⟨?_, ?_, ?_, ?_, ?_, ?_⟩
  · intro k hk1 hk2
    exact (playNext_iter_inv st hl h0 k (by omega)).2.1
  · rw [hs2]
  · rw [hs2, hM]
    show (playNext^[M] st).currentTrack = (playNext^[M + 1 - 1] st).currentTrack
    rw [Nat.add_sub_cancel]
  · rw [hs2]
    exact hqM
  · rw [hs2, hM]
    show (playNext^[M] st).queueIndex = ((M + 1 : Nat) : Int) - 1
    rw [hqiM]
    push_cast
    ring
  · rw [hs2]
    refine (playNext_past_end _ ?_ ?_ ?_).trans (pause_noop _ rfl rfl)
    · show ¬(playNext^[M] st).queue.length = 0
      rw [hqM]
      omega
    · show ¬(playNext^[M] st).queueIndex + 1 < ((playNext^[M] st).queue.length : Int)
      rw [hqiM, hqM, hM]
      push_cast
      omega
    · show (playNext^[M] st).loop = false
      exact hlpM

/-- Witness for C5: a fresh controller filled with a two-track playlist;
after two `playNext()` calls playback is stopped. -/
theorem playNext_exhaustion_witness :
    (playNext^[(addPlaylistToQueue (fun _ => 0) [⟨"a", "A"⟩, ⟨"b", "B"⟩] 0
        initState).queue.length]
      (addPlaylistToQueue (fun _ => 0) [⟨"a", "A"⟩, ⟨"b", "B"⟩] 0
        initState)).isPlaying = false :=
  (playNext_exhaustion
    (addPlaylistToQueue (fun _ => 0) [⟨"a", "A"⟩, ⟨"b", "B"⟩] 0 initState)
    (by decide) (by decide) (by decide)).2.1

/-- Claim C6: `playPrev()` with more than 3 seconds played restarts the
current track (`currentTime := 0`, `queueIndex` unchanged); at 3 seconds
or less it decrements `queueIndex` when positive, wraps to the last
index when at 0 with `loop` set, and otherwise restarts the current
track.  Hypotheses: a current track exists (non-empty queue) and
`queueIndex` satisfies its validity invariant. -/
theorem playPrev_spec (st : CState) (hne : st.queue ≠ [])
    (h0 : 0 ≤ st.queueIndex) (h1 : st.queueIndex < (st.queue.length : Int)) :
    (3 < st.audio.currentTime →
      (playPrev st).audio.currentTime = 0 ∧
      (playPrev st).queueIndex = st.queueIndex) ∧
    (st.audio.currentTime ≤ 3 → 0 < st.queueIndex →
      (playPrev st).queueIndex = st.queueIndex - 1) ∧
    (st.audio.currentTime ≤ 3 → st.queueIndex = 0 → st.loop = true →
      (playPrev st).queueIndex = (st.queue.length : Int) - 1) ∧
    (st.audio.currentTime ≤ 3 → st.queueIndex = 0 → st.loop = false →
      (playPrev st).audio.currentTime = 0 ∧
      (playPrev st).queueIndex = st.queueIndex) := by
  have hlen0 : ¬st.queue.length = 0 := fun h => hne (List.length_eq_zero.mp h)
  refine ⟨?_, ?_, ?_, ?_⟩
  · intro ht
    unfold playPrev
    rw [if_neg hlen0, if_pos ht]
    exact ⟨rfl, rfl⟩
  · intro ht hqi
    unfold playPrev
    rw [if_neg hlen0, if_neg (not_lt.mpr ht)]
    dsimp only
    rw [if_pos (by omega : (0 : Int) ≤ st.queueIndex - 1)]
    obtain ⟨tr, htr, hpfq⟩ := playFromQueue_of_inrange st (st.queueIndex - 1)
      (by omega) (by omega)
    rw [hpfq]
  · intro ht hqi hlp
    unfold playPrev
    rw [if_neg hlen0, if_neg (not_lt.mpr ht)]
    dsimp only
    rw [if_neg (by omega : ¬(0 : Int) ≤ st.queueIndex - 1), if_pos hlp]
    obtain ⟨tr, htr, hpfq⟩ := playFromQueue_of_inrange st
      ((st.queue.length : Int) - 1) (by omega) (by omega)
    rw [hpfq]
  · intro ht hqi hlp
    unfold playPrev
    rw [if_neg hlen0, if_neg (not_lt.mpr ht)]
    dsimp only
    rw [if_neg (by omega : ¬(0 : Int) ≤ st.queueIndex - 1), if_neg (by simp [hlp])]
    exact ⟨rfl, rfl⟩

/-- Witness for C6: the example from the claim — `currentTime = 5`,
`duration = 200`; `playPrev()` restarts the track: `currentTime` becomes
`0` and `queueIndex` is unchanged. -/
theorem playPrev_spec_witness :
    (playPrev { audio := ⟨"a", 5, 200, false⟩, currentTrack := none,
                isPlaying := true, miniPlayerVisible := true,
                queue := [⟨"a", "A", none, 1⟩], queueIndex := 0,
                queueExpanded := false, shuffle := false, loop := false,
                queueIdCounter := 1 }).audio.currentTime = 0 ∧
    (playPrev { audio := ⟨"a", 5, 200, false⟩, currentTrack := none,
                isPlaying := true, miniPlayerVisible := true,
                queue := [⟨"a", "A", none, 1⟩], queueIndex := 0,
                queueExpanded := false, shuffle := false, loop := false,
                queueIdCounter := 1 }).queueIndex = 0 :=
  (playPrev_spec { audio := ⟨"a", 5, 200, false⟩, currentTrack := none,
                   isPlaying := true, miniPlayerVisible := true,
                   queue := [⟨"a", "A", none, 1⟩], queueIndex := 0,
                   queueExpanded := false, shuffle := false, loop := false,
                   queueIdCounter := 1 }
    (by decide) (by decide) (by decide)).1 (by norm_num)

/-- Claim C4: enabling shuffle (from off) on a queue with more than one
item and a valid `queueIndex` pins the playing item first, permutes the
remaining items, resets `queueIndex` to 0, keeps the length, and sets
the `shuffle` flag. -/
theorem toggleShuffle_enable_spec (r : Nat → Nat) (st : CState)
    (hsh : st.shuffle = false) (hlen : 1 < st.queue.length)
    (h0 : 0 ≤ st.queueIndex) (h1 : st.queueIndex < (st.queue.length : Int)) :
    (toggleShuffle r st).shuffle = true ∧
    (toggleShuffle r st).queueIndex = 0 ∧
    (toggleShuffle r st).queue.length = st.queue.length ∧
    ∃ cur rest, getI st.queue st.queueIndex = some cur ∧
      (toggleShuffle r st).queue = cur :: rest ∧
      rest.Perm (st.queue.eraseIdx st.queueIndex.toNat) := by
  have hcur := getI_eq_some st.queue st.queueIndex h0 h1
  have hts : toggleShuffle r st =
      { st with shuffle := !st.shuffle,
                queue := (st.queue.get ⟨st.queueIndex.toNat, by omega⟩) ::
                  shuffleArray r (jsSlice st.queue 0 st.queueIndex ++
                    jsSliceFrom st.queue (st.queueIndex + 1)),
                queueIndex := 0 } := by
    unfold toggleShuffle
    dsimp only
    rw [if_pos (show (!st.shuffle) = true ∧ 1 < st.queue.length from
      ⟨by rw [hsh]; rfl, hlen⟩)]
    rw [hcur]
  have hba : jsSlice st.queue 0 st.queueIndex ++
      jsSliceFrom st.queue (st.queueIndex + 1) =
      st.queue.eraseIdx st.queueIndex.toNat := by
    rw [jsSlice_zero_take _ h0, jsSliceFrom_drop _ (by omega),
      List.eraseIdx_eq_take_drop_succ]
    congr 2
    omega
  refine ⟨?_, ?_, ?_, ?_⟩
  · rw [hts]
    show (!st.shuffle) = true
    rw [hsh]
    rfl
  · rw [hts]
  · rw [hts]
    show ((st.queue.get ⟨st.queueIndex.toNat, by omega⟩) :: _).length = _
    rw [List.length_cons, (shuffleArray_perm r _).length_eq, hba,
      List.length_eraseIdx, if_pos (by omega)]
    omega
  · refine ⟨st.queue.get ⟨st.queueIndex.toNat, by omega⟩,
      shuffleArray r (jsSlice st.queue 0 st.queueIndex ++
        jsSliceFrom st.queue (st.queueIndex + 1)), hcur, by rw [hts], ?_⟩
    rw [hba]
    exact shuffleArray_perm r _

/-- Witness for C4: the claim example — queue `[A,B,C,D]` with
`queueIndex = 2` (`C` playing); enabling shuffle sets the flag and
resets `queueIndex` to 0. -/
theorem toggleShuffle_enable_spec_witness :
    (toggleShuffle (fun _ => 0)
      { initState with
        queue := [⟨"a", "A", none, 1⟩, ⟨"b", "B", none, 2⟩,
                  ⟨"c", "C", none, 3⟩, ⟨"d", "D", none, 4⟩],
        queueIndex := 2, queueIdCounter := 4 }).shuffle = true ∧
    (toggleShuffle (fun _ => 0)
      { initState with
        queue := [⟨"a", "A", none, 1⟩, ⟨"b", "B", none, 2⟩,
                  ⟨"c", "C", none, 3⟩, ⟨"d", "D", none, 4⟩],
        queueIndex := 2, queueIdCounter := 4 }).queueIndex = 0 := by
  have h := toggleShuffle_enable_spec (fun _ => 0)
    { initState with
      queue := [⟨"a", "A", none, 1⟩, ⟨"b", "B", none, 2⟩,
                ⟨"c", "C", none, 3⟩, ⟨"d", "D", none, 4⟩],
      queueIndex := 2, queueIdCounter := 4 }
    (by decide) (by decide) (by decide) (by decide)
  exact ⟨h.1, h.2.1⟩


/-! Projection lemmas for `removeFromQueue` and `reorderQueue` on
in-range indices. -/

theorem removeFromQueue_queue {i : Int} (st : CState) (h0 : 0 ≤ i)
    (h1 : i < (st.queue.length : Int)) :
    (removeFromQueue i st).queue = st.queue.eraseIdx i.toNat := by
  unfold removeFromQueue spliceRemove1
  dsimp only
  rw [jsIdx_eq_toNat h0 (le_of_lt h1), List.eraseIdx_eq_take_drop_succ]

theorem removeFromQueue_queueIndex {i : Int} (st : CState) (h0 : 0 ≤ i)
    (h1 : i < (st.queue.length : Int)) :
    (removeFromQueue i st).queueIndex =
      if i < st.queueIndex then st.queueIndex - 1
      else if i = st.queueIndex ∧ (st.queue.length : Int) - 1 ≤ st.queueIndex then
        max 0 ((st.queue.length : Int) - 2)
      else st.queueIndex := by
  unfold removeFromQueue spliceRemove1
  dsimp only
  rw [jsIdx_eq_toNat h0 (le_of_lt h1)]
  have hlen : ((st.queue.take i.toNat ++ st.queue.drop (i.toNat + 1)).length : Int) =
      (st.queue.length : Int) - 1 := by
    rw [List.length_append, List.length_take, List.length_drop]
    omega
  rw [hlen]
  have h2 : (st.queue.length : Int) - 1 - 1 = (st.queue.length : Int) - 2 := by ring
  rw [h2]

theorem reorderQueue_queueIndex (f t : Int) (st : CState) :
    (reorderQueue f t st).queueIndex =
      if f = st.queueIndex then t
      else if f < st.queueIndex ∧ st.queueIndex ≤ t then st.queueIndex - 1
      else if st.queueIndex < f ∧ t ≤ st.queueIndex then st.queueIndex + 1
      else st.queueIndex := rfl

theorem reorderQueue_queue_eq {f : Int} (st : CState) (hf0 : 0 ≤ f)
    (hf1 : f < (st.queue.length : Int)) (t : Int) :
    ∃ item, st.queue[f.toNat]? = some item ∧
      (reorderQueue f t st).queue =
        spliceInsert (st.queue.eraseIdx f.toNat) t item := by
  have hf2 : f.toNat < st.queue.length := by omega
  have hsome : st.queue[f.toNat]? = some (st.queue.get ⟨f.toNat, hf2⟩) :=
    List.getElem?_eq_some.mpr ⟨hf2, rfl⟩
  refine ⟨st.queue.get ⟨f.toNat, hf2⟩, hsome, ?_⟩
  unfold reorderQueue spliceRemove1
  dsimp only
  rw [jsIdx_eq_toNat hf0 (le_of_lt hf1), hsome, List.eraseIdx_eq_take_drop_succ]

/-- Claim C1: with a non-empty queue and a valid `queueIndex`, each of
`addToQueue`, `removeFromQueue` (in-range index) and `reorderQueue`
(in-range indices) leaves `queueIndex` valid whenever the resulting
queue is non-empty; after `removeFromQueue(i)` with `i` different from
`queueIndex` and after any `reorderQueue(f, t)` the entry at the new
`queueIndex` is the very item (same id) that was at the old
`queueIndex`; removing the playing item itself clamps `queueIndex` to
the nearest remaining valid index, `min queueIndex (newLength - 1)`. -/
theorem queue_ops_queueIndex_invariant (st : CState) (hne : st.queue ≠ [])
    (hv : validIndex st) :
    (∀ tr : Track, validIndex (addToQueue tr st)) ∧
    (∀ i : Int, 0 ≤ i → i < (st.queue.length : Int) →
      ((removeFromQueue i st).queue ≠ [] → validIndex (removeFromQueue i st)) ∧
      (i ≠ st.queueIndex →
        getI (removeFromQueue i st).queue (removeFromQueue i st).queueIndex =
          getI st.queue st.queueIndex) ∧
      (i = st.queueIndex → (removeFromQueue i st).queue ≠ [] →
        (removeFromQueue i st).queueIndex =
          min st.queueIndex (((removeFromQueue i st).queue.length : Int) - 1))) ∧
    (∀ f t : Int, 0 ≤ f → f < (st.queue.length : Int) →
      0 ≤ t → t < (st.queue.length : Int) →
      validIndex (reorderQueue f t st) ∧
      getI (reorderQueue f t st).queue (reorderQueue f t st).queueIndex =
        getI st.queue st.queueIndex) := by
  obtain ⟨hv0, hv1⟩ := hv
  refine ⟨?_, ?_, ?_⟩
  · intro tr
    refine ⟨hv0, ?_⟩
    show st.queueIndex < ((st.queue ++ [_]).length : Int)
    rw [List.length_append]
    push_cast
    omega
  · intro i hi0 hi1
    have hq := removeFromQueue_queue st hi0 hi1
    have hqi := removeFromQueue_queueIndex st hi0 hi1
    have hlen : (removeFromQueue i st).queue.length = st.queue.length - 1 := by
      rw [hq, List.length_eraseIdx, if_pos (by omega)]
    refine ⟨?_, ?_, ?_⟩
    · intro hne2
      have hlen1 : st.queue.length - 1 ≠ 0 := by
        rw [← hlen]
        exact fun h => hne2 (List.length_eq_zero.mp h)
      constructor
      · rw [hqi]
        split_ifs <;> omega
      · rw [hqi, hlen]
        split_ifs <;> omega
    · intro hnei
      rw [hq, hqi]
      rcases lt_or_gt_of_ne hnei with hlt | hgt
      · rw [if_pos hlt,
          getI_eq_getElem? _ (st.queueIndex - 1) (by omega),
          getI_eq_getElem? _ st.queueIndex hv0,
          List.getElem?_eraseIdx, if_neg (by omega)]
        congr 1
        omega
      · rw [if_neg (by omega), if_neg (by omega),
          getI_eq_getElem? _ st.queueIndex hv0,
          getI_eq_getElem? _ st.queueIndex hv0,
          List.getElem?_eraseIdx, if_pos (by omega)]
    · intro heq hne2
      have hlen1 : st.queue.length - 1 ≠ 0 := by
        rw [← hlen]
        exact fun h => hne2 (List.length_eq_zero.mp h)
      rw [hqi, hlen]
      rw [if_neg (by omega)]
      by_cases hc : i = st.queueIndex ∧ (st.queue.length : Int) - 1 ≤ st.queueIndex
      · rw [if_pos hc]
        omega
      · rw [if_neg hc]
        omega
  · intro f t hf0 hf1 ht0 ht1
    obtain ⟨item, hitem, hq⟩ := reorderQueue_queue_eq st hf0 hf1 t
    have hqi := reorderQueue_queueIndex f t st
    have hel : (st.queue.eraseIdx f.toNat).length = st.queue.length - 1 := by
      rw [List.length_eraseIdx, if_pos (by omega)]
    have hlen : (reorderQueue f t st).queue.length = st.queue.length := by
      rw [hq, spliceInsert_length, hel]
      omega
    have hins := fun (m : Nat) =>
      spliceInsert_getElem? (st.queue.eraseIdx f.toNat) item ht0
        (by rw [hel]; omega) m
    refine ⟨⟨?_, ?_⟩, ?_⟩
    · rw [hqi]
      split_ifs <;> omega
    · rw [hqi, hlen]
      split_ifs <;> omega
    · rw [hq, hqi]
      by_cases hc1 : f = st.queueIndex
      · rw [if_pos hc1,
          getI_eq_getElem? _ t ht0,
          getI_eq_getElem? _ st.queueIndex hv0,
          hins t.toNat, if_neg (lt_irrefl _), if_pos rfl, ← hc1]
        exact hitem.symm
      · rw [if_neg hc1]
        by_cases hc2 : f < st.queueIndex ∧ st.queueIndex ≤ t
        · rw [if_pos hc2,
            getI_eq_getElem? _ (st.queueIndex - 1) (by omega),
            getI_eq_getElem? _ st.queueIndex hv0,
            hins (st.queueIndex - 1).toNat,
            if_pos (by omega : (st.queueIndex - 1).toNat < t.toNat),
            List.getElem?_eraseIdx, if_neg (by omega)]
          congr 1
          omega
        · rw [if_neg hc2]
          by_cases hc3 : st.queueIndex < f ∧ t ≤ st.queueIndex
          · rw [if_pos hc3,
              getI_eq_getElem? _ (st.queueIndex + 1) (by omega),
              getI_eq_getElem? _ st.queueIndex hv0,
              hins (st.queueIndex + 1).toNat,
              if_neg (by omega), if_neg (by omega),
              List.getElem?_eraseIdx,
              if_pos (by omega : (st.queueIndex + 1).toNat - 1 < f.toNat)]
            congr 1
            omega
          · rw [if_neg hc3,
              getI_eq_getElem? _ st.queueIndex hv0,
              getI_eq_getElem? _ st.queueIndex hv0,
              hins st.queueIndex.toNat]
            by_cases hc4 : f < st.queueIndex
            · rw [if_neg (by omega : ¬st.queueIndex.toNat < t.toNat),
                if_neg (by omega),
                List.getElem?_eraseIdx, if_neg (by omega)]
              congr 1
              omega
            · rw [if_pos (by omega : st.queueIndex.toNat < t.toNat),
                List.getElem?_eraseIdx, if_pos (by omega)]

/-- Witness for C1: queue `[A,B,C,D]` with `queueIndex = 2`; removing
index `0` keeps the index valid and still pointing at the item with id
`3`. -/
theorem queue_ops_queueIndex_invariant_witness :
    getI (removeFromQueue 0
        { initState with
          queue := [⟨"a", "A", none, 1⟩, ⟨"b", "B", none, 2⟩,
                    ⟨"c", "C", none, 3⟩, ⟨"d", "D", none, 4⟩],
          queueIndex := 2, queueIdCounter := 4 }).queue
      (removeFromQueue 0
        { initState with
          queue := [⟨"a", "A", none, 1⟩, ⟨"b", "B", none, 2⟩,
                    ⟨"c", "C", none, 3⟩, ⟨"d", "D", none, 4⟩],
          queueIndex := 2, queueIdCounter := 4 }).queueIndex =
    getI [⟨"a", "A", none, 1⟩, ⟨"b", "B", none, 2⟩,
          ⟨"c", "C", none, 3⟩, ⟨"d", "D", none, 4⟩] 2 :=
  ((queue_ops_queueIndex_invariant
    { initState with
      queue := [⟨"a", "A", none, 1⟩, ⟨"b", "B", none, 2⟩,
                ⟨"c", "C", none, 3⟩, ⟨"d", "D", none, 4⟩],
      queueIndex := 2, queueIdCounter := 4 }
    (by decide) (by decide)).2.1 0 (by decide) (by decide)).2.1 (by decide)

end AudioCtl
